import Mathlib

/-!
Verification of the document-request compiler, model-response parser, and
document publisher of the gemini-function service (src/main.py), as a shallow
embedding in Lean 4.

Conventions of the embedding:
* Python `str` becomes Lean `String`; Python `len` on a string counts code
  points, which matches `String.length` (the length of the underlying
  character list).
* The model response dictionary (keys `translated_summary`, `code_blocks`,
  `page_title`, `keywords`, each possibly absent) becomes the structure
  `ModelResult` with `Option` fields; `dict.get(key, default)` becomes
  `Option.getD`.
* The Google Docs request dictionaries built by `format_docs_requests`
  become the inductive `EditOperation`, with one constructor per request
  kind used by the source (`insertText`, `updateParagraphStyle`,
  `createParagraphBullets`, `updateTextStyle`).
* External collaborators (the Vertex AI generation call, `json.loads`,
  the Drive/Docs clients) are passed in as explicit oracle values; a call
  that can raise becomes an `Except String` value.
-/

/-- The model response record handed from `call_gemini` to
`format_docs_requests` (src/main.py). The source passes a plain dictionary;
a field is `none` when the corresponding key is absent, and every read in
the compiler goes through the source's `dict.get(key, default)` defaults. -/
structure ModelResult where
  translated_summary : Option String
  code_blocks : Option (List String)
  page_title : Option String
  keywords : Option String
deriving DecidableEq

/-- Payload of an `updateTextStyle` request: either the monospace font
styling used for code blocks (src/main.py lines 259-270) or the link
styling used for the source URL (lines 291-299). -/
inductive TextStylePayload where
  | fontStyle (fontFamily : String) (fontSizePtMagnitude : Nat)
  | linkStyle (url : String)
deriving DecidableEq

/-- One Google Docs batchUpdate request as built by `format_docs_requests`.
Constructor names follow the request keys in the source; the spec calls
these `InsertText`, `SetParagraphStyle`, `SetBulletList`, `SetTextStyle`. -/
inductive EditOperation where
  | insertText (position : Nat) (text : String)
  | updateParagraphStyle (startIndex endIndex : Nat) (namedStyleType : String)
  | createParagraphBullets (startIndex endIndex : Nat) (bulletPreset : String)
  | updateTextStyle (startIndex endIndex : Nat) (textStyle : TextStylePayload)
deriving DecidableEq

/-- Python `str.strip()`: remove whitespace from both ends. Whitespace is
modelled by `Char.isWhitespace` (space, tab, carriage return, newline),
which covers the characters a model response contains in practice. -/
def pyStrip (s : String) : String :=
  String.mk
    (((s.data.dropWhile Char.isWhitespace).reverse.dropWhile Char.isWhitespace).reverse)

/-- Python `str.startswith(prefixStr)` via the underlying character lists. -/
def pyStartsWith (s prefixStr : String) : Bool :=
  prefixStr.data.isPrefixOf s.data

/-- Python `str.split('\n')` on the underlying character list: splits at
every newline, keeping empty parts ( `[[]]` for the empty string). -/
def splitLinesList : List Char → List (List Char)
  | [] => [[]]
  | c :: cs =>
    if c = '\n' then [] :: splitLinesList cs
    else
      match splitLinesList cs with
      | [] => [[c]]
      | l :: ls => (c :: l) :: ls

/-- Python `str.split('\n')` on strings: `translated_summary.split('\n')`
at src/main.py line 210. -/
def splitLines (s : String) : List String :=
  (splitLinesList s.data).map String.mk

/-- The cursor value after the summary header insertion:
`current_index = 1; current_index += len("1 - Summary\n")`
(src/main.py lines 192-201). -/
def summaryStartIndex : Nat := 1 + ("1 - Summary\n").length

/-- The two requests of the summary header (src/main.py lines 194-208):
insert the literal `"1 - Summary\n"` at index 1, then set HEADING_1 over
`{startIndex: 1, endIndex: current_index}`. -/
def headerOps : List EditOperation :=
  [EditOperation.insertText 1 "1 - Summary\n",
   EditOperation.updateParagraphStyle 1 summaryStartIndex "HEADING_1"]

/-- Body of the summary-line loop (src/main.py lines 211-234) for one line:
skip whitespace-only lines; otherwise insert `line + "\n"` at the cursor and,
when the stripped line starts with the bullet marker, add a
`createParagraphBullets` over `[line_start_index, current_index - 1)`.
Returns the emitted requests and the updated cursor. -/
def summaryLineOps (line : String) (ci : Nat) : List EditOperation × Nat :=
  if pyStrip line = "" then ([], ci)
  else
    let line_text := line ++ "\n"
    let ci' := ci + line_text.length
    if pyStartsWith (pyStrip line) "・" then
      ([EditOperation.insertText ci line_text,
        EditOperation.createParagraphBullets ci (ci' - 1) "BULLET_DISC_CIRCLE_SQUARE"],
       ci')
    else
      ([EditOperation.insertText ci line_text], ci')

/-- The summary-line loop of src/main.py lines 211-234, threading the
cursor through `summaryLineOps` for each line. -/
def summaryOps : List String → Nat → List EditOperation × Nat
  | [], ci => ([], ci)
  | line :: rest, ci =>
    let p := summaryLineOps line ci
    let q := summaryOps rest p.2
    (p.1 ++ q.1, q.2)

/-- The per-code-block loop (src/main.py lines 247-270): insert
`code_block + "\n\n"` at the cursor, then set Courier New 10pt over
`[code_start_index, current_index - 2)`. -/
def codeBlockOps : List String → Nat → List EditOperation × Nat
  | [], ci => ([], ci)
  | code_block :: rest, ci =>
    let code_text := code_block ++ "\n\n"
    let ci' := ci + code_text.length
    let q := codeBlockOps rest ci'
    (EditOperation.insertText ci code_text
       :: EditOperation.updateTextStyle ci (ci' - 2)
            (TextStylePayload.fontStyle "Courier New" 10)
       :: q.1,
     q.2)

/-- The code section (src/main.py lines 236-270): emitted only when
`code_blocks` is non-empty, starting with the `"\nCode block:\n"` header. -/
def codeSection (code_blocks : List String) (ci : Nat) : List EditOperation × Nat :=
  if code_blocks.isEmpty then ([], ci)
  else
    let p := codeBlockOps code_blocks (ci + ("\nCode block:\n").length)
    (EditOperation.insertText ci "\nCode block:\n" :: p.1, p.2)

/-- The URL section (src/main.py lines 272-299): one insertion of
`"\n2 - URL - {page_title}\n{url}\n"`, a HEADING_2 over the heading
substring, and a link style over `[current_index - len(url) - 1,
current_index - 1)`. -/
def urlSection (page_title url : String) (ci : Nat) : List EditOperation × Nat :=
  let url_text := "\n2 - URL - " ++ page_title ++ "\n" ++ url ++ "\n"
  let url_title_start_index := ci + 1
  let ci' := ci + url_text.length
  ([EditOperation.insertText ci url_text,
    EditOperation.updateParagraphStyle url_title_start_index
      (url_title_start_index + ("2 - URL - " ++ page_title).length) "HEADING_2",
    EditOperation.updateTextStyle (ci' - url.length - 1) (ci' - 1)
      (TextStylePayload.linkStyle url)],
   ci')

/-- The keyword section (src/main.py lines 302-319): one insertion of
`"\n3 - 関連キーワード\n{keywords}\n"` and a HEADING_2 over the heading
substring. -/
def kwSection (keywords : String) (ci : Nat) : List EditOperation × Nat :=
  let keywords_text := "\n3 - 関連キーワード\n" ++ keywords ++ "\n"
  let keywords_title_start_index := ci + 1
  let ci' := ci + keywords_text.length
  ([EditOperation.insertText ci keywords_text,
    EditOperation.updateParagraphStyle keywords_title_start_index
      (keywords_title_start_index + ("3 - 関連キーワード").length) "HEADING_2"],
   ci')

/-- Summary-line requests of a whole compile: the loop of src/main.py
lines 210-234 starting at the cursor left by the header. -/
def sumPart (gemini_result : ModelResult) : List EditOperation × Nat :=
  summaryOps
    (splitLines (gemini_result.translated_summary.getD "和訳の取得に失敗しました。"))
    summaryStartIndex

/-- Code-section requests of a whole compile (src/main.py lines 236-270). -/
def codePart (gemini_result : ModelResult) : List EditOperation × Nat :=
  codeSection (gemini_result.code_blocks.getD []) (sumPart gemini_result).2

/-- URL-section requests of a whole compile (src/main.py lines 272-299). -/
def urlPart (gemini_result : ModelResult) (url : String) : List EditOperation × Nat :=
  urlSection (gemini_result.page_title.getD "Title acquisition failure") url
    (codePart gemini_result).2

/-- Keyword-section requests of a whole compile (src/main.py lines 302-319). -/
def kwPart (gemini_result : ModelResult) (url : String) : List EditOperation × Nat :=
  kwSection (gemini_result.keywords.getD "Extraction failure")
    (urlPart gemini_result url).2

/-- `format_docs_requests` (src/main.py lines 189-321): the full ordered
request list, sections in source order. -/
def format_docs_requests (gemini_result : ModelResult) (url : String) :
    List EditOperation :=
  headerOps ++ (sumPart gemini_result).1 ++ (codePart gemini_result).1
    ++ (urlPart gemini_result url).1 ++ (kwPart gemini_result url).1

/-! ## Model-response parser (`call_gemini`, src/main.py lines 57-134)

The Vertex AI call and `json.loads` are external collaborators: they enter
the model as an `Except String String` (the generation outcome) and a
decoder `String → Except String ModelResult` (the JSON deserializer, whose
error value is the exception message interpolated by the source). -/

/-- Embedding of `re.sub(r'^```json\s*', '', s)` for the cleaned response
(src/main.py line 111): drop a leading literal fence-plus-tag and the
whitespace after it, if present. `\s` is modelled by `Char.isWhitespace`. -/
def stripJsonFencePrefix (s : String) : String :=
  if pyStartsWith s "```json" then
    String.mk ((s.data.drop 7).dropWhile Char.isWhitespace)
  else s

/-- Embedding of `re.sub(r'\s*```$', '', s)` (src/main.py line 112) on a
string with no trailing whitespace (its input was stripped at line 111):
drop a trailing literal fence and the maximal whitespace run before it. -/
def stripFenceSuffix (s : String) : String :=
  let r := s.data.reverse
  if r.take 3 = ['`', '`', '`'] then
    String.mk (((r.drop 3).dropWhile Char.isWhitespace).reverse)
  else s

/-- The response cleaning of src/main.py lines 111-112:
`prediction.strip()` then the two fence-stripping substitutions. -/
def cleanPrediction (prediction : String) : String :=
  stripFenceSuffix (stripJsonFencePrefix (pyStrip prediction))

/-- `call_gemini`'s response handling (src/main.py lines 101-134).
`generate` is the outcome of `model.generate_content(...).text`; `loads` is
`json.loads` restricted to the expected record shape. On a decode failure
the fallback dictionary of lines 119-124 is returned; on a generation
failure the fallback of lines 129-134 is returned; no exception escapes. -/
def call_gemini (generate : Except String String)
    (loads : String → Except String ModelResult) : ModelResult :=
  match generate with
  | Except.ok prediction =>
    match loads (cleanPrediction prediction) with
    | Except.ok result => result
    | Except.error e =>
        { translated_summary :=
            some ("Gemini応答のJSON解析失敗: " ++ e ++ "\nRaw: " ++ prediction),
          code_blocks := some [],
          page_title := some "Failure",
          keywords := some "Extraction failure" }
  | Except.error e =>
      { translated_summary := some ("Gemini API呼び出しエラー: " ++ e),
        code_blocks := some [],
        page_title := some "Failure",
        keywords := some "Extraction failure" }

/-! ## Document publisher (`create_google_doc`, src/main.py lines 136-187) -/

/-- The record returned by `drive_service.files().create(...)` with fields
`id,webViewLink`; either field may be absent from the response. -/
structure DriveCreateResult where
  id : Option String
  webViewLink : Option String
deriving DecidableEq

/-- Outcomes of the four external calls made by `create_google_doc`, fixed
per run: document creation, permission grant, batch update, file delete. -/
structure Services where
  createDoc : Except String DriveCreateResult
  sharePerm : Except String Unit
  batchUpdate : Except String Unit
  deleteFile : Except String Unit

/-- Observable outcome of `create_google_doc`: the returned document URL or
the raised exception message, together with the list of document ids for
which a `files().delete` call was issued. -/
structure PublishOutcome where
  result : Except String (Option String)
  deleteCalls : List String

/-- Python truthiness of `document_id` at src/main.py lines 166 and 181:
`None` and the empty string are falsy. -/
def truthyOpt : Option String → Bool
  | none => false
  | some s => !(s == "")

/-- `create_google_doc` (src/main.py lines 136-187). The share call's
outcome is swallowed by the inner `try/except` of lines 154-162; a falsy
`document_id` raises at line 167 with no rollback (the `except` block's
guard at line 181 sees a falsy `document_id`); a batch-update failure
triggers exactly one delete call whose own outcome is swallowed by the
inner `try/except` of lines 182-186, and the original error is re-raised. -/
def create_google_doc (svc : Services) : PublishOutcome :=
  match svc.createDoc with
  | Except.error e =>
      -- `document_id` is not in `locals()`: no rollback attempt.
      { result := Except.error e, deleteCalls := [] }
  | Except.ok created_doc =>
    let document_id := created_doc.id
    let doc_url := created_doc.webViewLink
    -- lines 154-162: share attempt, failure logged and swallowed
    match svc.sharePerm with
    | _ =>
      if truthyOpt document_id then
        match svc.batchUpdate with
        | Except.ok _ => { result := Except.ok doc_url, deleteCalls := [] }
        | Except.error e =>
          -- rollback: one delete call; its outcome is logged only
          match svc.deleteFile with
          | Except.ok _ =>
              { result := Except.error e, deleteCalls := [document_id.getD ""] }
          | Except.error _ =>
              { result := Except.error e, deleteCalls := [document_id.getD ""] }
      else
        { result := Except.error "Failed to create Google Doc, no ID returned.",
          deleteCalls := [] }

/-! ## Observers for the compiled request list

These definitions state the claims; they are not part of the source. -/

/-- Concatenation of all texts inserted by the `insertText` requests of a
request list, in order: the simulated document produced by an append-only
replay. -/
def textOf : List EditOperation → String
  | [] => ""
  | EditOperation.insertText _ t :: rest => t ++ textOf rest
  | _ :: rest => textOf rest

/-- `insertsOk ops c` holds when, starting from cursor `c`, every
`insertText` in `ops` is positioned exactly at the running cursor, the
cursor advancing by the code-point length of each inserted text. -/
def insertsOk : List EditOperation → Nat → Prop
  | [], _ => True
  | EditOperation.insertText p t :: rest, c => p = c ∧ insertsOk rest (c + t.length)
  | _ :: rest, c => insertsOk rest c

/-- The `[startIndex, endIndex)` range of a style request; `none` for an
insertion. -/
def styleRange : EditOperation → Option (Nat × Nat)
  | EditOperation.insertText _ _ => none
  | EditOperation.updateParagraphStyle s e _ => some (s, e)
  | EditOperation.createParagraphBullets s e _ => some (s, e)
  | EditOperation.updateTextStyle s e _ => some (s, e)

/-- `stylesOk ops c` holds when, starting from cursor `c`, every style
request in `ops` has `1 ≤ startIndex ≤ endIndex ≤ cursor` at the moment it
appears, the cursor advancing by the length of each inserted text. -/
def stylesOk : List EditOperation → Nat → Prop
  | [], _ => True
  | EditOperation.insertText _ t :: rest, c => stylesOk rest (c + t.length)
  | EditOperation.updateParagraphStyle s e _ :: rest, c =>
      (1 ≤ s ∧ s ≤ e ∧ e ≤ c) ∧ stylesOk rest c
  | EditOperation.createParagraphBullets s e _ :: rest, c =>
      (1 ≤ s ∧ s ≤ e ∧ e ≤ c) ∧ stylesOk rest c
  | EditOperation.updateTextStyle s e _ :: rest, c =>
      (1 ≤ s ∧ s ≤ e ∧ e ≤ c) ∧ stylesOk rest c

/-- Insert `t` into document `d` at one-based position `p` (position `i`
denotes the slot before the document's `i`-th character; index 0 is
reserved by the Docs format, so character `i` of the body lives at list
index `i - 1`). -/
def insertAt (d : List Char) (p : Nat) (t : List Char) : List Char :=
  d.take (p - 1) ++ t ++ d.drop (p - 1)

/-- Replay only the `insertText` requests of `ops` against document `d`,
inserting each text at its stated position. -/
def replayInserts : List EditOperation → List Char → List Char
  | [], d => d
  | EditOperation.insertText p t :: rest, d => replayInserts rest (insertAt d p t.data)
  | _ :: rest, d => replayInserts rest d

/-- Substring test: `needle` occurs contiguously inside `hay`. -/
def strContains (hay needle : String) : Bool :=
  hay.data.tails.any (fun t => needle.data.isPrefixOf t)

/-! ## Concrete inputs used by witnesses and counterexamples -/

/-- A model response dictionary with every key absent. -/
def mrNone : ModelResult := ⟨none, none, none, none⟩

/-- A model response with one bulleted summary line, one code block, a
page title and keywords (the spec's end-to-end example). -/
def mrFull : ModelResult :=
  ⟨some "・こんにちは世界", some ["```python\nprint(1)\n```"], some "Example",
   some "greeting, world"⟩

/-- A model response whose only set field is a single code block. -/
def mrOneBlock : ModelResult := ⟨none, some ["x"], none, none⟩

/-- A decoder that fails on every input with message `"bad"`. -/
def loadsFail : String → Except String ModelResult :=
  fun _ => Except.error "bad"

/-- Service outcomes: creation succeeds with id `"doc1"`, batch update
fails, and the rollback delete itself fails. -/
def svcBatchFail : Services :=
  { createDoc := Except.ok ⟨some "doc1", some "https://docs.example/doc1"⟩,
    sharePerm := Except.ok (),
    batchUpdate := Except.error "batch apply failed",
    deleteFile := Except.error "delete failed" }

/-! ## Basic string and `textOf` lemmas -/

theorem string_eq_of_data (s t : String) (h : s.data = t.data) : s = t := by
  cases s; cases t; exact congrArg String.mk h

theorem string_append_nil (s : String) : s ++ "" = s := by
  cases s with
  | mk d =>
    show String.mk (d ++ []) = String.mk d
    rw [List.append_nil]

theorem textOf_append (l1 l2 : List EditOperation) :
    textOf (l1 ++ l2) = textOf l1 ++ textOf l2 := by
  induction l1 with
  | nil =>
    show textOf l2 = "" ++ textOf l2
    exact (string_eq_of_data _ _ rfl)
  | cons op rest ih =>
    cases op with
    | insertText p t =>
      show t ++ textOf (rest ++ l2) = (t ++ textOf rest) ++ textOf l2
      rw [ih, String.append_assoc]
    | updateParagraphStyle s e n => exact ih
    | createParagraphBullets s e n => exact ih
    | updateTextStyle s e st => exact ih

/-! ## The cursor invariant for insertions (claim C1) -/

theorem insertsOk_append (l1 l2 : List EditOperation) (c : Nat) :
    insertsOk (l1 ++ l2) c ↔
      insertsOk l1 c ∧ insertsOk l2 (c + (textOf l1).length) := by
  induction l1 generalizing c with
  | nil => simp [insertsOk, textOf]
  | cons op rest ih =>
    cases op with
    | insertText p t =>
      simp [insertsOk, textOf, ih, String.length_append, Nat.add_assoc, and_assoc]
    | updateParagraphStyle s e n => simp [insertsOk, textOf, ih]
    | createParagraphBullets s e n => simp [insertsOk, textOf, ih]
    | updateTextStyle s e st => simp [insertsOk, textOf, ih]

theorem summaryLineOps_two (line : String) (ci : Nat) :
    (summaryLineOps line ci).2 = ci + (textOf (summaryLineOps line ci).1).length := by
  unfold summaryLineOps
  split
  · simp [textOf]
  · split <;>
      simp [textOf, string_append_nil, String.length_append,
        show ("\n").length = 1 from rfl]

theorem summaryLineOps_insertsOk (line : String) (ci : Nat) :
    insertsOk (summaryLineOps line ci).1 ci := by
  unfold summaryLineOps
  split
  · simp [insertsOk]
  · split <;> simp [insertsOk]

theorem summaryOps_two (lines : List String) (ci : Nat) :
    (summaryOps lines ci).2 = ci + (textOf (summaryOps lines ci).1).length := by
  induction lines generalizing ci with
  | nil => simp [summaryOps, textOf]
  | cons line rest ih =>
    have h1 := summaryLineOps_two line ci
    have h2 := ih (summaryLineOps line ci).2
    simp only [summaryOps, textOf_append, String.length_append]
    omega

theorem summaryOps_insertsOk (lines : List String) (ci : Nat) :
    insertsOk (summaryOps lines ci).1 ci := by
  induction lines generalizing ci with
  | nil => simp [summaryOps, insertsOk]
  | cons line rest ih =>
    simp only [summaryOps]
    rw [insertsOk_append]
    refine ⟨summaryLineOps_insertsOk line ci, ?_⟩
    rw [← summaryLineOps_two line ci]
    exact ih _

theorem codeBlockOps_two (blocks : List String) (ci : Nat) :
    (codeBlockOps blocks ci).2 = ci + (textOf (codeBlockOps blocks ci).1).length := by
  induction blocks generalizing ci with
  | nil => simp [codeBlockOps, textOf]
  | cons b rest ih =>
    have h2 := ih (ci + (b ++ "\n\n").length)
    simp only [codeBlockOps, textOf, String.length_append] at h2 ⊢
    omega

theorem codeBlockOps_insertsOk (blocks : List String) (ci : Nat) :
    insertsOk (codeBlockOps blocks ci).1 ci := by
  induction blocks generalizing ci with
  | nil => simp [codeBlockOps, insertsOk]
  | cons b rest ih =>
    simp only [codeBlockOps]
    show _ = _ ∧ insertsOk _ _
    exact ⟨rfl, ih _⟩

theorem codeSection_two (blocks : List String) (ci : Nat) :
    (codeSection blocks ci).2 = ci + (textOf (codeSection blocks ci).1).length := by
  unfold codeSection
  split
  · simp [textOf]
  · have h1 := codeBlockOps_two blocks (ci + ("\nCode block:\n").length)
    simp only [textOf, String.length_append]
    omega

theorem codeSection_insertsOk (blocks : List String) (ci : Nat) :
    insertsOk (codeSection blocks ci).1 ci := by
  unfold codeSection
  split
  · simp [insertsOk]
  · exact ⟨rfl, codeBlockOps_insertsOk _ _⟩

theorem urlSection_two (page_title url : String) (ci : Nat) :
    (urlSection page_title url ci).2 =
      ci + (textOf (urlSection page_title url ci).1).length := by
  simp [urlSection, textOf, string_append_nil]

theorem urlSection_insertsOk (page_title url : String) (ci : Nat) :
    insertsOk (urlSection page_title url ci).1 ci := by
  simp [urlSection, insertsOk]

theorem kwSection_two (keywords : String) (ci : Nat) :
    (kwSection keywords ci).2 = ci + (textOf (kwSection keywords ci).1).length := by
  simp [kwSection, textOf, string_append_nil]

theorem kwSection_insertsOk (keywords : String) (ci : Nat) :
    insertsOk (kwSection keywords ci).1 ci := by
  simp [kwSection, insertsOk]

theorem sumPart_two (r : ModelResult) :
    (sumPart r).2 = summaryStartIndex + (textOf (sumPart r).1).length :=
  summaryOps_two _ _

theorem codePart_two (r : ModelResult) :
    (codePart r).2 = (sumPart r).2 + (textOf (codePart r).1).length :=
  codeSection_two _ _

theorem urlPart_two (r : ModelResult) (url : String) :
    (urlPart r url).2 = (codePart r).2 + (textOf (urlPart r url).1).length :=
  urlSection_two _ _ _

theorem kwPart_two (r : ModelResult) (url : String) :
    (kwPart r url).2 = (urlPart r url).2 + (textOf (kwPart r url).1).length :=
  kwSection_two _ _

theorem insertsOk_congr {ops : List EditOperation} {c c' : Nat}
    (h : insertsOk ops c) (e : c = c') : insertsOk ops c' := e ▸ h

theorem format_insertsOk (r : ModelResult) (url : String) :
    insertsOk (format_docs_requests r url) 1 := by
  have hH : (textOf headerOps).length = 12 := rfl
  have hs : summaryStartIndex = 13 := rfl
  have h1 := sumPart_two r
  have h2 := codePart_two r
  have h3 := urlPart_two r url
  unfold format_docs_requests
  rw [insertsOk_append, insertsOk_append, insertsOk_append, insertsOk_append]
  simp only [textOf_append, String.length_append]
  refine ⟨⟨⟨⟨?_, ?_⟩, ?_⟩, ?_⟩, ?_⟩
  · simp [headerOps, insertsOk]
  · exact summaryOps_insertsOk _ _
  · exact insertsOk_congr
      (codeSection_insertsOk (r.code_blocks.getD []) (sumPart r).2) (by omega)
  · exact insertsOk_congr
      (urlSection_insertsOk (r.page_title.getD "Title acquisition failure") url
        (codePart r).2) (by omega)
  · exact insertsOk_congr
      (kwSection_insertsOk (r.keywords.getD "Extraction failure")
        (urlPart r url).2) (by omega)

theorem insertsOk_get {ops : List EditOperation} {c : Nat} (h : insertsOk ops c)
    {i p : Nat} {t : String}
    (hi : ops[i]? = some (EditOperation.insertText p t)) :
    p = c + (textOf (ops.take i)).length := by
  induction ops generalizing c i with
  | nil => simp at hi
  | cons op rest ih =>
    cases op with
    | insertText q u =>
      have h' : q = c ∧ insertsOk rest (c + u.length) := h
      cases i with
      | zero =>
        simp only [List.getElem?_cons_zero, Option.some.injEq] at hi
        cases hi
        simpa [textOf] using h'.1
      | succ j =>
        have hr := ih h'.2 (by simpa using hi)
        simp only [List.take_succ_cons, textOf, String.length_append]
        omega
    | updateParagraphStyle s e n =>
      have h' : insertsOk rest c := h
      cases i with
      | zero => simp at hi
      | succ j =>
        have hr := ih h' (by simpa using hi)
        simpa [List.take_succ_cons, textOf] using hr
    | createParagraphBullets s e n =>
      have h' : insertsOk rest c := h
      cases i with
      | zero => simp at hi
      | succ j =>
        have hr := ih h' (by simpa using hi)
        simpa [List.take_succ_cons, textOf] using hr
    | updateTextStyle s e st =>
      have h' : insertsOk rest c := h
      cases i with
      | zero => simp at hi
      | succ j =>
        have hr := ih h' (by simpa using hi)
        simpa [List.take_succ_cons, textOf] using hr

/-- C1: in the request list produced by `format_docs_requests`, every
`insertText`'s position equals 1 plus the sum of the code-point lengths of
the texts of all earlier `insertText` requests; the cursor starts at 1 and
advances by exactly the length of each inserted string, so every insertion
appends at the current end of the simulated document. -/
theorem insert_positions_track_cursor (gemini_result : ModelResult) (url : String)
    (i p : Nat) (t : String)
    (h : (format_docs_requests gemini_result url)[i]? =
      some (EditOperation.insertText p t)) :
    p = 1 + (textOf ((format_docs_requests gemini_result url).take i)).length :=
  insertsOk_get (format_insertsOk gemini_result url) h

theorem insert_positions_track_cursor_witness :
    (1 : Nat) = 1 + (textOf ((format_docs_requests mrNone "u").take 0)).length :=
  insert_positions_track_cursor mrNone "u" 0 1 "1 - Summary\n" rfl

/-! ## Style ranges stay in bounds (claim C10) -/

theorem stylesOk_congr {ops : List EditOperation} {c c' : Nat}
    (h : stylesOk ops c) (e : c = c') : stylesOk ops c' := e ▸ h

theorem stylesOk_append (l1 l2 : List EditOperation) (c : Nat) :
    stylesOk (l1 ++ l2) c ↔
      stylesOk l1 c ∧ stylesOk l2 (c + (textOf l1).length) := by
  induction l1 generalizing c with
  | nil => simp [stylesOk, textOf]
  | cons op rest ih =>
    cases op with
    | insertText p t =>
      simp [stylesOk, textOf, ih, String.length_append, Nat.add_assoc]
    | updateParagraphStyle s e n => simp [stylesOk, textOf, ih, and_assoc]
    | createParagraphBullets s e n => simp [stylesOk, textOf, ih, and_assoc]
    | updateTextStyle s e st => simp [stylesOk, textOf, ih, and_assoc]

theorem summaryLineOps_stylesOk (line : String) (ci : Nat) (h : 1 ≤ ci) :
    stylesOk (summaryLineOps line ci).1 ci := by
  unfold summaryLineOps
  split
  · simp [stylesOk]
  · split
    · refine ?_
      show stylesOk [_, _] ci
      simp only [stylesOk, String.length_append, and_true,
        show ("\n").length = 1 from rfl]
      omega
    · simp [stylesOk]

theorem summaryOps_stylesOk (lines : List String) (ci : Nat) (h : 1 ≤ ci) :
    stylesOk (summaryOps lines ci).1 ci := by
  induction lines generalizing ci with
  | nil => simp [summaryOps, stylesOk]
  | cons line rest ih =>
    have h1 := summaryLineOps_two line ci
    simp only [summaryOps]
    rw [stylesOk_append]
    refine ⟨summaryLineOps_stylesOk line ci h, ?_⟩
    exact stylesOk_congr (ih (summaryLineOps line ci).2 (by omega)) (by omega)

theorem codeBlockOps_stylesOk (blocks : List String) (ci : Nat) (h : 1 ≤ ci) :
    stylesOk (codeBlockOps blocks ci).1 ci := by
  induction blocks generalizing ci with
  | nil => simp [codeBlockOps, stylesOk]
  | cons b rest ih =>
    simp only [codeBlockOps]
    show stylesOk (_ :: _ :: _) ci
    simp only [stylesOk, String.length_append, show ("\n\n").length = 2 from rfl]
    refine ⟨by omega, ?_⟩
    exact ih (ci + (b.length + 2)) (by omega)

theorem codeSection_stylesOk (blocks : List String) (ci : Nat) (h : 1 ≤ ci) :
    stylesOk (codeSection blocks ci).1 ci := by
  unfold codeSection
  split
  · simp [stylesOk]
  · show stylesOk (_ :: _) ci
    simp only [stylesOk]
    exact codeBlockOps_stylesOk _ _ (by omega)

theorem urlSection_stylesOk (page_title url : String) (ci : Nat) (h : 1 ≤ ci) :
    stylesOk (urlSection page_title url ci).1 ci := by
  simp only [urlSection, stylesOk, String.length_append, and_true,
    show ("\n2 - URL - ").length = 11 from rfl,
    show ("2 - URL - ").length = 10 from rfl,
    show ("\n").length = 1 from rfl]
  omega

theorem kwSection_stylesOk (keywords : String) (ci : Nat) (h : 1 ≤ ci) :
    stylesOk (kwSection keywords ci).1 ci := by
  simp only [kwSection, stylesOk, String.length_append, and_true,
    show ("\n3 - 関連キーワード\n").length = 13 from rfl,
    show ("3 - 関連キーワード").length = 11 from rfl,
    show ("\n").length = 1 from rfl]
  omega

theorem format_stylesOk (r : ModelResult) (url : String) :
    stylesOk (format_docs_requests r url) 1 := by
  have hH : (textOf headerOps).length = 12 := rfl
  have hs : summaryStartIndex = 13 := rfl
  have h1 := sumPart_two r
  have h2 := codePart_two r
  have h3 := urlPart_two r url
  unfold format_docs_requests
  rw [stylesOk_append, stylesOk_append, stylesOk_append, stylesOk_append]
  simp only [textOf_append, String.length_append]
  refine ⟨⟨⟨⟨?_, ?_⟩, ?_⟩, ?_⟩, ?_⟩
  · simp [headerOps, stylesOk, summaryStartIndex]
  · exact summaryOps_stylesOk _ _ (by omega)
  · exact stylesOk_congr
      (codeSection_stylesOk (r.code_blocks.getD []) (sumPart r).2 (by omega))
      (by omega)
  · exact stylesOk_congr
      (urlSection_stylesOk (r.page_title.getD "Title acquisition failure") url
        (codePart r).2 (by omega)) (by omega)
  · exact stylesOk_congr
      (kwSection_stylesOk (r.keywords.getD "Extraction failure")
        (urlPart r url).2 (by omega)) (by omega)

theorem stylesOk_get {ops : List EditOperation} {c : Nat} (h : stylesOk ops c)
    {i : Nat} {op : EditOperation} (hi : ops[i]? = some op)
    {s e : Nat} (hr : styleRange op = some (s, e)) :
    1 ≤ s ∧ s ≤ e ∧ e ≤ c + (textOf (ops.take i)).length := by
  induction ops generalizing c i with
  | nil => simp at hi
  | cons hd rest ih =>
    cases hd with
    | insertText q u =>
      have h' : stylesOk rest (c + u.length) := h
      cases i with
      | zero =>
        simp only [List.getElem?_cons_zero, Option.some.injEq] at hi
        cases hi
        simp [styleRange] at hr
      | succ j =>
        have hr' := ih h' (by simpa using hi)
        simp only [List.take_succ_cons, textOf, String.length_append]
        omega
    | updateParagraphStyle a b n =>
      have h' : (1 ≤ a ∧ a ≤ b ∧ b ≤ c) ∧ stylesOk rest c := h
      cases i with
      | zero =>
        simp only [List.getElem?_cons_zero, Option.some.injEq] at hi
        cases hi
        simp only [styleRange, Option.some.injEq, Prod.mk.injEq] at hr
        obtain ⟨rfl, rfl⟩ := hr
        exact ⟨h'.1.1, h'.1.2.1, by omega⟩
      | succ j =>
        have hr' := ih h'.2 (by simpa using hi)
        simpa [List.take_succ_cons, textOf] using hr'
    | createParagraphBullets a b n =>
      have h' : (1 ≤ a ∧ a ≤ b ∧ b ≤ c) ∧ stylesOk rest c := h
      cases i with
      | zero =>
        simp only [List.getElem?_cons_zero, Option.some.injEq] at hi
        cases hi
        simp only [styleRange, Option.some.injEq, Prod.mk.injEq] at hr
        obtain ⟨rfl, rfl⟩ := hr
        exact ⟨h'.1.1, h'.1.2.1, by omega⟩
      | succ j =>
        have hr' := ih h'.2 (by simpa using hi)
        simpa [List.take_succ_cons, textOf] using hr'
    | updateTextStyle a b st =>
      have h' : (1 ≤ a ∧ a ≤ b ∧ b ≤ c) ∧ stylesOk rest c := h
      cases i with
      | zero =>
        simp only [List.getElem?_cons_zero, Option.some.injEq] at hi
        cases hi
        simp only [styleRange, Option.some.injEq, Prod.mk.injEq] at hr
        obtain ⟨rfl, rfl⟩ := hr
        exact ⟨h'.1.1, h'.1.2.1, by omega⟩
      | succ j =>
        have hr' := ih h'.2 (by simpa using hi)
        simpa [List.take_succ_cons, textOf] using hr'

/-- C10: every style request emitted by `format_docs_requests`
(`updateParagraphStyle`, `createParagraphBullets`, `updateTextStyle`) has
`1 ≤ startIndex ≤ endIndex`, and its `endIndex` never exceeds the cursor
value at the moment the request appears — 1 plus the total length of the
texts inserted by the preceding requests — so no emitted range refers to
text that has not yet been inserted. -/
theorem style_ranges_in_bounds (gemini_result : ModelResult) (url : String)
    (i : Nat) (op : EditOperation) (s e : Nat)
    (h1 : (format_docs_requests gemini_result url)[i]? = some op)
    (h2 : styleRange op = some (s, e)) :
    1 ≤ s ∧ s ≤ e ∧
      e ≤ 1 + (textOf ((format_docs_requests gemini_result url).take i)).length :=
  stylesOk_get (format_stylesOk gemini_result url) h1 h2

theorem style_ranges_in_bounds_witness :
    1 ≤ 1 ∧ 1 ≤ 13 ∧
      13 ≤ 1 + (textOf ((format_docs_requests mrNone "u").take 1)).length :=
  style_ranges_in_bounds mrNone "u" 1
    (EditOperation.updateParagraphStyle 1 13 "HEADING_1") 1 13 rfl rfl

/-! ## Replaying insertions equals concatenation -/

theorem string_length_data (s : String) : s.data.length = s.length := rfl

theorem replayInserts_eq (ops : List EditOperation) :
    ∀ (c : Nat) (d : List Char), insertsOk ops c → 1 ≤ c → d.length = c - 1 →
      replayInserts ops d = d ++ (textOf ops).data := by
  induction ops with
  | nil =>
    intro c d _ _ _
    simp [replayInserts, textOf]
  | cons op rest ih =>
    intro c d h hc hd
    cases op with
    | insertText p t =>
      have h' : p = c ∧ insertsOk rest (c + t.length) := h
      have hins : insertAt d p t.data = d ++ t.data := by
        unfold insertAt
        have hp : p - 1 = d.length := by omega
        rw [hp, List.take_length, List.drop_length, List.append_nil]
      show replayInserts rest (insertAt d p t.data) = d ++ (textOf (EditOperation.insertText p t :: rest)).data
      rw [hins,
        ih (c + t.length) (d ++ t.data) h'.2 (by omega)
          (by have ht : t.data.length = t.length := rfl
              rw [List.length_append]
              omega)]
      show (d ++ t.data) ++ (textOf rest).data = d ++ (t ++ textOf rest).data
      rw [String.data_append, List.append_assoc]
    | updateParagraphStyle a b n =>
      exact ih c d h hc hd
    | createParagraphBullets a b n =>
      exact ih c d h hc hd
    | updateTextStyle a b st =>
      exact ih c d h hc hd

theorem replay_format (r : ModelResult) (url : String) :
    replayInserts (format_docs_requests r url) [] =
      (textOf (format_docs_requests r url)).data := by
  have h := replayInserts_eq (format_docs_requests r url) 1 []
    (format_insertsOk r url) (Nat.le_refl 1) rfl
  simpa using h

theorem textOf_data_format (r : ModelResult) (url : String) :
    (textOf (format_docs_requests r url)).data
      = ("1 - Summary\n").data ++ ((textOf (sumPart r).1).data
        ++ ((textOf (codePart r).1).data ++ ((textOf (urlPart r url).1).data
          ++ (textOf (kwPart r url).1).data))) := by
  unfold format_docs_requests
  rw [textOf_append, textOf_append, textOf_append, textOf_append]
  have hHeader : textOf headerOps = "1 - Summary\n" := string_append_nil "1 - Summary\n"
  rw [hHeader]
  simp [String.data_append, List.append_assoc]

/-! ## The summary header and its heading range (claim C2) -/

/-- C2 counterexample: the second request is the HEADING_1 paragraph style
with range `[1, 13)`, which is not the range `[1, 1 + len("1 - Summary"))
= [1, 12)` that would cover `"1 - Summary"` without its trailing line
break; `[1, 13)` also covers the newline at index 12. -/
theorem summary_heading_range_cex :
    (format_docs_requests mrNone "u")[1]? =
      some (EditOperation.updateParagraphStyle 1 13 "HEADING_1")
    ∧ (13 : Nat) ≠ 1 + ("1 - Summary").length :=
  ⟨rfl, by decide⟩

/-- C2 (amended): for every ModelResult (including one with an empty
summary) and every sourceUrl, compile first emits the insertion of the
literal header `"1 - Summary\n"` at index 1 and then a `SetParagraphStyle`
(HEADING_1) whose range `[1, 1 + len("1 - Summary\n")) = [1, 13)` covers
the full inserted header including its trailing line break: replaying the
batch, the styled range holds exactly `"1 - Summary\n"`. -/
theorem summary_header_ops (gemini_result : ModelResult) (url : String) :
    (format_docs_requests gemini_result url).take 2 =
      [EditOperation.insertText 1 "1 - Summary\n",
       EditOperation.updateParagraphStyle 1 (1 + ("1 - Summary\n").length) "HEADING_1"]
    ∧ (replayInserts (format_docs_requests gemini_result url) []).take
        (("1 - Summary\n").length) = ("1 - Summary\n").data := by
  refine ⟨rfl, ?_⟩
  rw [replay_format, textOf_data_format]
  exact List.take_left _ _

/-! ## Bullet detection per summary line (claim C5) -/

/-- C5: for a summary line with non-whitespace content, the loop body
inserts `line + "\n"` at the cursor and emits a `createParagraphBullets`
over `[ci, ci + len(line + "\n") - 1)` exactly when the stripped line
starts with the bullet marker `・`, and emits no bullet request otherwise;
that range covers exactly the inserted line without its trailing line
break (its length is `len(line)`, e.g. 4 for the line `"・foo"`). -/
theorem bullet_list_range (line : String) (ci : Nat) (h : ¬ pyStrip line = "") :
    ((summaryLineOps line ci).1 =
      if pyStartsWith (pyStrip line) "・"
      then [EditOperation.insertText ci (line ++ "\n"),
            EditOperation.createParagraphBullets ci (ci + (line ++ "\n").length - 1)
              "BULLET_DISC_CIRCLE_SQUARE"]
      else [EditOperation.insertText ci (line ++ "\n")])
    ∧ (ci + (line ++ "\n").length - 1) - ci = line.length := by
  constructor
  · simp only [summaryLineOps, if_neg h]
    rcases Bool.eq_false_or_eq_true (pyStartsWith (pyStrip line) "・") with hb | hb <;>
      simp [hb]
  · simp only [String.length_append, show ("\n").length = 1 from rfl]
    omega

theorem bullet_list_range_witness :
    (((summaryLineOps "・foo" 5).1 =
      if pyStartsWith (pyStrip "・foo") "・"
      then [EditOperation.insertText 5 ("・foo" ++ "\n"),
            EditOperation.createParagraphBullets 5 (5 + ("・foo" ++ "\n").length - 1)
              "BULLET_DISC_CIRCLE_SQUARE"]
      else [EditOperation.insertText 5 ("・foo" ++ "\n")])
    ∧ (5 + ("・foo" ++ "\n").length - 1) - 5 = ("・foo").length) :=
  bullet_list_range "・foo" 5 (by decide)

/-! ## Code block styling (claim C8) -/

theorem codeBlockOps_elem (blocks : List String) (ci i : Nat) (b : String)
    (h : blocks[i]? = some b) :
    ∃ p, EditOperation.insertText p (b ++ "\n\n") ∈ (codeBlockOps blocks ci).1
      ∧ EditOperation.updateTextStyle p (p + b.length)
          (TextStylePayload.fontStyle "Courier New" 10) ∈ (codeBlockOps blocks ci).1 := by
  induction blocks generalizing ci i with
  | nil => simp at h
  | cons b0 rest ih =>
    cases i with
    | zero =>
      have hb : b0 = b := by simpa using h
      have e : ci + (b0 ++ "\n\n").length - 2 = ci + b0.length := by
        simp only [String.length_append, show ("\n\n").length = 2 from rfl]
        omega
      refine ⟨ci, ?_, ?_⟩
      · rw [← hb]
        show _ ∈ _ :: _ :: _
        exact List.mem_cons_self _ _
      · rw [← hb, ← e]
        show _ ∈ _ :: _ :: _
        exact List.mem_cons_of_mem _ (List.mem_cons_self _ _)
    | succ j =>
      have h' : rest[j]? = some b := by simpa using h
      obtain ⟨p, hp1, hp2⟩ := ih (ci + (b0 ++ "\n\n").length) j h'
      refine ⟨p, ?_, ?_⟩
      · show _ ∈ _ :: _ :: _
        exact List.mem_cons_of_mem _ (List.mem_cons_of_mem _ hp1)
      · show _ ∈ _ :: _ :: _
        exact List.mem_cons_of_mem _ (List.mem_cons_of_mem _ hp2)

/-- C8: for each code block of `codeBlocks`, compile inserts
`block + "\n\n"` at some position `p` and emits an `updateTextStyle`
setting the fixed monospace font Courier New at the fixed size 10pt over
`[p, p + len(block))` — the range starting where the block was inserted
and of length exactly the code-point length of the block, so it covers
the block text and excludes the two trailing line breaks. -/
theorem code_block_style_covers_block (gemini_result : ModelResult) (url : String)
    (i : Nat) (b : String)
    (h : (gemini_result.code_blocks.getD [])[i]? = some b) :
    ∃ p, EditOperation.insertText p (b ++ "\n\n")
        ∈ format_docs_requests gemini_result url
      ∧ EditOperation.updateTextStyle p (p + b.length)
          (TextStylePayload.fontStyle "Courier New" 10)
          ∈ format_docs_requests gemini_result url := by
  have hne : (gemini_result.code_blocks.getD []).isEmpty = false := by
    cases hcb : gemini_result.code_blocks.getD [] with
    | nil => rw [hcb] at h; simp at h
    | cons x xs => rfl
  have hcp : (codePart gemini_result).1 =
      EditOperation.insertText (sumPart gemini_result).2 "\nCode block:\n"
        :: (codeBlockOps (gemini_result.code_blocks.getD [])
             ((sumPart gemini_result).2 + ("\nCode block:\n").length)).1 := by
    unfold codePart codeSection
    simp [hne]
  obtain ⟨p, hp1, hp2⟩ := codeBlockOps_elem (gemini_result.code_blocks.getD [])
    ((sumPart gemini_result).2 + ("\nCode block:\n").length) i b h
  refine ⟨p, ?_, ?_⟩
  · unfold format_docs_requests
    refine List.mem_append_left _ (List.mem_append_left _ (List.mem_append_right _ ?_))
    rw [hcp]
    exact List.mem_cons_of_mem _ hp1
  · unfold format_docs_requests
    refine List.mem_append_left _ (List.mem_append_left _ (List.mem_append_right _ ?_))
    rw [hcp]
    exact List.mem_cons_of_mem _ hp2

theorem code_block_style_covers_block_witness :
    ∃ p, EditOperation.insertText p ("x" ++ "\n\n")
        ∈ format_docs_requests mrOneBlock "u"
      ∧ EditOperation.updateTextStyle p (p + ("x").length)
          (TextStylePayload.fontStyle "Courier New" 10)
          ∈ format_docs_requests mrOneBlock "u" :=
  code_block_style_covers_block mrOneBlock "u" 0 "x" rfl

/-! ## The code header appears exactly when codeBlocks is non-empty (claim C7) -/

theorem splitLinesList_no_newline (cs : List Char) :
    ∀ l ∈ splitLinesList cs, '\n' ∉ l := by
  induction cs with
  | nil =>
    intro l hl
    simp only [splitLinesList, List.mem_singleton] at hl
    subst hl
    simp
  | cons c cs ih =>
    intro l hl
    by_cases hc : c = '\n'
    · simp only [splitLinesList, if_pos hc] at hl
      rcases List.mem_cons.1 hl with rfl | hl'
      · simp
      · exact ih l hl'
    · simp only [splitLinesList, if_neg hc] at hl
      cases hr : splitLinesList cs with
      | nil =>
        rw [hr] at hl
        simp only [List.mem_singleton] at hl
        subst hl
        intro hmem
        rcases List.mem_singleton.1 hmem with h1
        exact hc h1.symm
      | cons l0 ls =>
        rw [hr] at hl
        rcases List.mem_cons.1 hl with rfl | hl'
        · have h0 : '\n' ∉ l0 := ih l0 (by rw [hr]; exact List.mem_cons_self _ _)
          intro hmem
          rcases List.mem_cons.1 hmem with h1 | h2
          · exact hc h1.symm
          · exact h0 h2
        · exact ih l (by rw [hr]; exact List.mem_cons_of_mem _ hl')

theorem splitLines_no_newline (s l : String) (h : l ∈ splitLines s) :
    '\n' ∉ l.data := by
  unfold splitLines at h
  rcases List.mem_map.1 h with ⟨lc, hlc, rfl⟩
  exact splitLinesList_no_newline s.data lc hlc

theorem line_append_ne_header (l : String) (h : '\n' ∉ l.data) :
    l ++ "\n" ≠ "\nCode block:\n" := by
  intro he
  have hd := congrArg String.data he
  rw [String.data_append] at hd
  rw [show ("\nCode block:\n").data = ("\nCode block:").data ++ ['\n'] from rfl] at hd
  have h3 : l.data = ("\nCode block:").data :=
    List.append_inj_left' (by simpa using hd) rfl
  apply h
  rw [h3]
  decide

theorem url_text_ne_header (pt url : String) :
    "\n2 - URL - " ++ pt ++ "\n" ++ url ++ "\n" ≠ "\nCode block:\n" := by
  intro he
  have hd := congrArg String.data he
  rw [String.data_append, String.data_append, String.data_append,
    String.data_append] at hd
  rw [show ("\n2 - URL - ").data = '\n' :: '2' :: (" - URL - ").data from rfl] at hd
  rw [show ("\nCode block:\n").data = '\n' :: 'C' :: ("ode block:\n").data from rfl] at hd
  simp only [List.cons_append, List.append_assoc] at hd
  injection hd with h1 h2
  injection h2 with h3 h4
  exact absurd h3 (by decide)

theorem kw_text_ne_header (kw : String) :
    "\n3 - 関連キーワード\n" ++ kw ++ "\n" ≠ "\nCode block:\n" := by
  intro he
  have hd := congrArg String.data he
  rw [String.data_append, String.data_append] at hd
  rw [show ("\n3 - 関連キーワード\n").data
      = '\n' :: '3' :: (" - 関連キーワード\n").data from rfl] at hd
  rw [show ("\nCode block:\n").data = '\n' :: 'C' :: ("ode block:\n").data from rfl] at hd
  simp only [List.cons_append, List.append_assoc] at hd
  injection hd with h1 h2
  injection h2 with h3 h4
  exact absurd h3 (by decide)

theorem summaryLineOps_shape (line : String) (ci : Nat) (op : EditOperation)
    (h : op ∈ (summaryLineOps line ci).1) :
    op = EditOperation.insertText ci (line ++ "\n")
    ∨ (∃ a b pr, op = EditOperation.createParagraphBullets a b pr) := by
  unfold summaryLineOps at h
  split at h
  · simp at h
  · split at h
    · rcases List.mem_cons.1 h with rfl | h'
      · exact Or.inl rfl
      · rcases List.mem_singleton.1 h' with rfl
        exact Or.inr ⟨_, _, _, rfl⟩
    · rcases List.mem_singleton.1 h with rfl
      exact Or.inl rfl

theorem summaryOps_shape (lines : List String) (ci : Nat) (op : EditOperation)
    (h : op ∈ (summaryOps lines ci).1) :
    (∃ p l, l ∈ lines ∧ op = EditOperation.insertText p (l ++ "\n"))
    ∨ (∃ a b pr, op = EditOperation.createParagraphBullets a b pr) := by
  induction lines generalizing ci with
  | nil => simp [summaryOps] at h
  | cons line rest ih =>
    simp only [summaryOps] at h
    rcases List.mem_append.1 h with h1 | h2
    · rcases summaryLineOps_shape line ci op h1 with h' | h'
      · exact Or.inl ⟨ci, line, List.mem_cons_self _ _, h'⟩
      · exact Or.inr h'
    · rcases ih _ h2 with ⟨p, l, hl, he⟩ | h'
      · exact Or.inl ⟨p, l, List.mem_cons_of_mem _ hl, he⟩
      · exact Or.inr h'

theorem headerOps_insert_texts (p : Nat) (t : String)
    (h : EditOperation.insertText p t ∈ headerOps) : t = "1 - Summary\n" := by
  simp [headerOps] at h
  exact h.2

theorem urlSection_insert_texts (pt url : String) (ci p : Nat) (t : String)
    (h : EditOperation.insertText p t ∈ (urlSection pt url ci).1) :
    t = "\n2 - URL - " ++ pt ++ "\n" ++ url ++ "\n" := by
  simp [urlSection] at h
  exact h.2

theorem kwSection_insert_texts (kw : String) (ci p : Nat) (t : String)
    (h : EditOperation.insertText p t ∈ (kwSection kw ci).1) :
    t = "\n3 - 関連キーワード\n" ++ kw ++ "\n" := by
  simp [kwSection] at h
  exact h.2

/-- C7: compiling with `codeBlocks` empty never emits the
`"\nCode block:\n"` header insertion — the whole code section is skipped —
while compiling with `codeBlocks` non-empty always emits it (at the cursor
position reached after the summary section). -/
theorem code_header_iff_blocks (gemini_result : ModelResult) (url : String) :
    ((gemini_result.code_blocks.getD []).isEmpty = true →
      ∀ p, EditOperation.insertText p "\nCode block:\n"
        ∉ format_docs_requests gemini_result url)
    ∧ ((gemini_result.code_blocks.getD []).isEmpty = false →
      EditOperation.insertText (sumPart gemini_result).2 "\nCode block:\n"
        ∈ format_docs_requests gemini_result url) := by
  constructor
  · intro hemp p hmem
    unfold format_docs_requests at hmem
    rcases List.mem_append.1 hmem with hmem1 | hK
    · rcases List.mem_append.1 hmem1 with hmem2 | hU
      · rcases List.mem_append.1 hmem2 with hmem3 | hC
        · rcases List.mem_append.1 hmem3 with hH | hS
          · exact absurd (headerOps_insert_texts _ _ hH) (by decide)
          · rcases summaryOps_shape _ _ _ hS with ⟨q, l, hl, he⟩ | ⟨a, b, pr, he⟩
            · injection he with h1 h2
              exact line_append_ne_header l (splitLines_no_newline _ _ hl) h2.symm
            · simp at he
        · unfold codePart codeSection at hC
          rw [if_pos hemp] at hC
          simp at hC
      · exact url_text_ne_header _ url (urlSection_insert_texts _ _ _ _ _ hU).symm
    · exact kw_text_ne_header _ (kwSection_insert_texts _ _ _ _ hK).symm
  · intro hne
    unfold format_docs_requests
    refine List.mem_append_left _ (List.mem_append_left _ (List.mem_append_right _ ?_))
    unfold codePart codeSection
    rw [if_neg (by simp [hne])]
    exact List.mem_cons_self _ _

theorem code_header_iff_blocks_witness :
    (EditOperation.insertText 5 "\nCode block:\n" ∉ format_docs_requests mrNone "u")
    ∧ EditOperation.insertText (sumPart mrOneBlock).2 "\nCode block:\n"
        ∈ format_docs_requests mrOneBlock "u" :=
  ⟨(code_header_iff_blocks mrNone "u").1 rfl 5,
   (code_header_iff_blocks mrOneBlock "u").2 rfl⟩

/-! ## The link style covers exactly the URL (claim C4) -/

theorem drop_take_middle {α : Type} (A B C : List α) :
    ((A ++ (B ++ C)).drop A.length).take B.length = B := by
  rw [List.drop_left]
  exact List.take_left B C

/-- C4: for every ModelResult and every sourceUrl (multi-byte characters
included), compile emits an `updateTextStyle` whose payload links to
`sourceUrl` and whose range `[s, e)` has code-point length exactly
`len(sourceUrl)`; replaying the batch, the range holds exactly the
inserted URL and ends one character before the source section's final
trailing line break (the character at position `e` is that line break). -/
theorem link_style_covers_url (gemini_result : ModelResult) (url : String) :
    ∃ s e, EditOperation.updateTextStyle s e (TextStylePayload.linkStyle url)
        ∈ format_docs_requests gemini_result url
      ∧ e - s = url.length
      ∧ ((replayInserts (format_docs_requests gemini_result url) []).drop (s - 1)).take
          (url.length + 1) = url.data ++ ['\n'] := by
  refine ⟨(urlPart gemini_result url).2 - url.length - 1,
    (urlPart gemini_result url).2 - 1, ?_, ?_, ?_⟩
  · unfold format_docs_requests
    refine List.mem_append_left _ (List.mem_append_right _ ?_)
    show _ ∈ [_, _, _]
    exact List.mem_cons_of_mem _ (List.mem_cons_of_mem _ (List.mem_cons_self _ _))
  · have hU2 : (urlPart gemini_result url).2 = (codePart gemini_result).2
        + ("\n2 - URL - " ++ (gemini_result.page_title.getD "Title acquisition failure")
            ++ "\n" ++ url ++ "\n").length := rfl
    have hUT : ("\n2 - URL - "
          ++ (gemini_result.page_title.getD "Title acquisition failure")
          ++ "\n" ++ url ++ "\n").length
        = 13 + (gemini_result.page_title.getD "Title acquisition failure").length
          + url.length := by
      simp only [String.length_append, show ("\n2 - URL - ").length = 11 from rfl,
        show ("\n").length = 1 from rfl]
      omega
    have h1 := sumPart_two gemini_result
    have h2 := codePart_two gemini_result
    have hs : summaryStartIndex = 13 := rfl
    omega
  · have hUrlText : textOf (urlPart gemini_result url).1
        = "\n2 - URL - " ++ (gemini_result.page_title.getD "Title acquisition failure")
          ++ "\n" ++ url ++ "\n" :=
      string_append_nil _
    have hD : (textOf (format_docs_requests gemini_result url)).data
        = (("1 - Summary\n").data ++ (textOf (sumPart gemini_result).1).data
            ++ (textOf (codePart gemini_result).1).data
            ++ ("\n2 - URL - ").data
            ++ (gemini_result.page_title.getD "Title acquisition failure").data
            ++ ['\n'])
          ++ ((url.data ++ ['\n'])
            ++ (textOf (kwPart gemini_result url).1).data) := by
      rw [textOf_data_format, hUrlText]
      simp [String.data_append, List.append_assoc, show ("\n").data = ['\n'] from rfl]
    have hA : (urlPart gemini_result url).2 - url.length - 1 - 1
        = (("1 - Summary\n").data ++ (textOf (sumPart gemini_result).1).data
            ++ (textOf (codePart gemini_result).1).data
            ++ ("\n2 - URL - ").data
            ++ (gemini_result.page_title.getD "Title acquisition failure").data
            ++ ['\n']).length := by
      rw [List.length_append, List.length_append, List.length_append,
        List.length_append, List.length_append]
      have e1 : (textOf (sumPart gemini_result).1).data.length
          = (textOf (sumPart gemini_result).1).length := rfl
      have e2 : (textOf (codePart gemini_result).1).data.length
          = (textOf (codePart gemini_result).1).length := rfl
      have e3 : (gemini_result.page_title.getD "Title acquisition failure").data.length
          = (gemini_result.page_title.getD "Title acquisition failure").length := rfl
      have e4 : (("1 - Summary\n").data).length = 12 := rfl
      have e5 : (("\n2 - URL - ").data).length = 11 := rfl
      have e6 : (['\n'] : List Char).length = 1 := rfl
      have hU2 : (urlPart gemini_result url).2 = (codePart gemini_result).2
          + ("\n2 - URL - " ++ (gemini_result.page_title.getD "Title acquisition failure")
              ++ "\n" ++ url ++ "\n").length := rfl
      have hUT : ("\n2 - URL - "
            ++ (gemini_result.page_title.getD "Title acquisition failure")
            ++ "\n" ++ url ++ "\n").length
          = 13 + (gemini_result.page_title.getD "Title acquisition failure").length
            + url.length := by
        simp only [String.length_append, show ("\n2 - URL - ").length = 11 from rfl,
          show ("\n").length = 1 from rfl]
        omega
      have h1 := sumPart_two gemini_result
      have h2 := codePart_two gemini_result
      have hs : summaryStartIndex = 13 := rfl
      omega
    rw [replay_format, hD, hA,
      show url.length + 1 = (url.data ++ ['\n']).length from by simp]
    exact drop_take_middle _ _ _

/-! ## Publisher rollback contract (claim C3) -/

/-- C3: if document creation succeeds and returns a (truthy) identifier
and the batch apply fails, `create_google_doc` issues exactly one delete
call for that identifier and surfaces the batch-apply error — whatever the
outcomes of the share and delete calls, including a failing delete; if the
creation response carried no identifier, no delete call is issued. -/
theorem rollback_on_batch_failure (svc : Services) (created_doc : DriveCreateResult)
    (i e : String) (hc : svc.createDoc = Except.ok created_doc) :
    (created_doc.id = some i → ¬ i = "" → svc.batchUpdate = Except.error e →
      (create_google_doc svc).deleteCalls = [i]
      ∧ (create_google_doc svc).result = Except.error e)
    ∧ (created_doc.id = none → (create_google_doc svc).deleteCalls = []) := by
  constructor
  · intro hid hne hb
    have ht : truthyOpt (some i) = true := by
      simp [truthyOpt, hne]
    cases hsp : svc.sharePerm <;>
      cases hdf : svc.deleteFile <;>
        simp [create_google_doc, hc, hsp, hdf, ht, hb, hid]
  · intro hid
    have ht : truthyOpt created_doc.id = false := by
      rw [hid]
      rfl
    cases hsp : svc.sharePerm <;>
      simp [create_google_doc, hc, hsp, ht]

theorem rollback_on_batch_failure_witness :
    (create_google_doc svcBatchFail).deleteCalls = ["doc1"]
    ∧ (create_google_doc svcBatchFail).result = Except.error "batch apply failed" :=
  (rollback_on_batch_failure svcBatchFail
    ⟨some "doc1", some "https://docs.example/doc1"⟩ "doc1" "batch apply failed"
    rfl).1 rfl (by decide) rfl

/-! ## Parser failure fallback (claim C6) -/

/-- C6 counterexample: feeding the parser the non-JSON string `"oops"`
with a decoder failing with error `"bad"` produces the diagnostic
`"Gemini応答のJSON解析失敗: bad\nRaw: oops"`, whose summary lines (split
on line breaks, as the compiler derives them) are two; no single summary
line embeds both the parse error and the raw text, so `summaryLines` does
not contain one diagnostic line embedding the parse error and the raw
text. -/
theorem parse_failure_single_line_cex :
    splitLines ((call_gemini (Except.ok "oops") loadsFail).translated_summary.getD "")
      = ["Gemini応答のJSON解析失敗: bad", "Raw: oops"]
    ∧ (["Gemini応答のJSON解析失敗: bad", "Raw: oops"].any
        (fun l => strContains l "bad" && strContains l "oops")) = false := by
  constructor
  · decide
  · decide

/-- C6 (amended): for every raw model output that fails to deserialize,
the parser returns (never raises) a ModelResult whose `translated_summary`
is the single diagnostic string `"Gemini応答のJSON解析失敗: {error}\nRaw:
{raw}"` — embedding the parse error and the raw text, the embedded line
break making it span two or more summary lines, the first embedding the
parse error and the rest the raw text — with `codeBlocks` empty,
`pageTitle` the sentinel `"Failure"`, and `keywords` the sentinel
`"Extraction failure"`. -/
theorem parse_failure_fallback (prediction e : String)
    (loads : String → Except String ModelResult)
    (h : loads (cleanPrediction prediction) = Except.error e) :
    call_gemini (Except.ok prediction) loads =
      { translated_summary :=
          some ("Gemini応答のJSON解析失敗: " ++ e ++ "\nRaw: " ++ prediction),
        code_blocks := some [],
        page_title := some "Failure",
        keywords := some "Extraction failure" } := by
  simp only [call_gemini]
  rw [h]

theorem parse_failure_fallback_witness :
    call_gemini (Except.ok "oops") loadsFail =
      { translated_summary :=
          some ("Gemini応答のJSON解析失敗: " ++ "bad" ++ "\nRaw: " ++ "oops"),
        code_blocks := some [],
        page_title := some "Failure",
        keywords := some "Extraction failure" } :=
  parse_failure_fallback "oops" "bad" loadsFail rfl

/-! ## Permission errors from the LLM call are swallowed (claim C9) -/

/-- C9 (code bug): any failure of the generation call — in particular a
permission-denied error from the inference backend — is caught by the
catch-all handler inside `call_gemini` (src/main.py line 125) and
converted into a fallback ModelResult, so the request pipeline continues
and the error is not propagated; the dedicated PermissionDenied handler
in `process_text` (src/main.py lines 364-366), which would return the
claimed HTTP 500, is unreachable for errors of the LLM call. -/
theorem permission_error_swallowed (loads : String → Except String ModelResult) :
    call_gemini (Except.error "403 PermissionDenied: Vertex AI access denied") loads =
      { translated_summary :=
          some ("Gemini API呼び出しエラー: "
            ++ "403 PermissionDenied: Vertex AI access denied"),
        code_blocks := some [],
        page_title := some "Failure",
        keywords := some "Extraction failure" } := rfl
